import Mathlib

/-!
Verification of the thumbplan finger server (thumbplanserver/finger_server.py
and thumbplanserver/finger_server_win.py).

Modelling conventions:
- Python strings are Lean String; positions and lengths count characters.
- Timestamps are Int (datetime.timestamp values, with the resolution left
  abstract); the cache TTL (self.cache_time) is an Int so that the tests'
  assignment of a negative TTL is expressible.
- The filesystem seen by _read_project_file is a function from the path
  string to a ReadResult: the file exists and reads with some content,
  the exists() probe answers False, or the probe/read raises an exception.
- The directory tree seen by _list_projects is a list of named entries,
  each a directory (with children) or a plain file.
- Python dict is an association list with dict update semantics (an insert
  of a present key replaces its value in place, an absent key appends).
- str.isdigit is modelled for ASCII digits; str.strip for ASCII whitespace.
  All inputs used in counterexamples and witnesses are ASCII, so the
  restriction does not affect any verdict.
-/

/-! ## Python string primitives -/

/-- ASCII whitespace recognised by the model of str.strip. -/
def isPySpace (c : Char) : Bool :=
  c = ' ' || c = '\t' || c = '\n' || c = '\r' || c = '\x0b' || c = '\x0c'

/-- Model of str.strip on a character list: drop leading and trailing whitespace. -/
def stripChars (l : List Char) : List Char :=
  ((l.dropWhile isPySpace).reverse.dropWhile isPySpace).reverse

/-- Model of str.strip. -/
def pyStrip (s : String) : String := String.mk (stripChars s.data)

/-- Model of str.split sep (full split): splitting the empty string yields
one empty field, and each separator occurrence opens a new field. -/
def splitChars (sep : Char) : List Char → List (List Char)
  | [] => [[]]
  | c :: cs =>
    let rest := splitChars sep cs
    if c = sep then [] :: rest
    else
      match rest with
      | [] => [[c]]
      | p :: ps => (c :: p) :: ps

/-- Model of str.split sep on String. -/
def pySplit (sep : Char) (s : String) : List String :=
  (splitChars sep s.data).map String.mk

/-- Model of str.split sep maxsplit 1 restricted to the case where the
separator occurs: returns the part before the first separator and the rest. -/
def splitOnce (sep : Char) : List Char → Option (List Char × List Char)
  | [] => none
  | c :: cs =>
    if c = sep then some ([], cs)
    else (splitOnce sep cs).map (fun p => (c :: p.1, p.2))

/-- Boolean test that the first list occurs at the head of the second. -/
def startsList : List Char → List Char → Bool
  | [], _ => true
  | _ :: _, [] => false
  | a :: as, b :: bs => a == b && startsList as bs

/-- Model of str.startswith. -/
def pyStartsWith (s pre : String) : Bool := startsList pre.data s.data

/-- Model of slicing a string from character index n onward. -/
def pyDrop (s : String) (n : Nat) : String := String.mk (s.data.drop n)

/-- Boolean test that the string ends with the given suffix. -/
def endsWithStr (s suf : String) : Bool :=
  startsList suf.data.reverse s.data.reverse

/-- Model of str.isdigit (ASCII digits): non-empty and all characters digits. -/
def pyIsdigit (s : String) : Bool := !s.data.isEmpty && s.data.all Char.isDigit

/-- Model of the str.join used by the server: glue the pieces with a newline. -/
def joinNL : List String → String
  | [] => ""
  | [x] => x
  | x :: xs => x ++ "\n" ++ joinNL xs

/-- Model of an f-string field padded left-justified to the given width. -/
def ljust (s : String) (w : Nat) : String :=
  s ++ String.mk (List.replicate (w - s.data.length) ' ')

/-- Model of an f-string field padded right-justified to the given width. -/
def rjust (s : String) (w : Nat) : String :=
  String.mk (List.replicate (w - s.data.length) ' ') ++ s

/-- Boolean test that the second list occurs contiguously inside the first. -/
def hasSub (l sub : List Char) : Bool :=
  startsList sub l ||
    match l with
    | [] => false
    | _ :: bs => hasSub bs sub

/-- Boolean substring test on strings. -/
def strContains (s sub : String) : Bool := hasSub s.data sub.data

/-! ## The content cache and FingerServer._read_project_file

Both server variants carry the same two fields: self.cache, a dict from the
path string to a (timestamp, content) pair, and self.cache_time, the TTL.
The method _read_project_file is textually identical in finger_server.py
(lines 39-57) and finger_server_win.py (lines 46-63), so one embedding
serves both. -/

/-- The cache dict: path string to (timestamp, content). -/
def Cache := List (String × Int × String)

instance : DecidableEq Cache := by unfold Cache; infer_instance

/-- Dict membership plus indexing, as used by the cache. -/
def cacheLookup : Cache → String → Option (Int × String)
  | [], _ => none
  | (k', v) :: rest, k => if k' = k then some v else cacheLookup rest k

/-- Dict assignment: replace the value of a present key in place, append an
absent key at the end (Python dicts preserve insertion order). -/
def cacheInsert : Cache → String → Int × String → Cache
  | [], k, v => [(k, v)]
  | (k', v') :: rest, k, v =>
    if k' = k then (k, v) :: rest else (k', v') :: cacheInsert rest k v

/-- Outcome of the exists()/read_text() probe on one path. -/
inductive ReadResult where
  | content (c : String)
  | missing
  | ioError
deriving DecidableEq

/-- Result of one _read_project_file call: the returned Optional string, the
cache dict afterwards, and whether the call touched the filesystem at all
(the exists() probe or the read). -/
structure ReadOutcome where
  result : Option String
  cache : Cache
  diskAccessed : Bool
deriving DecidableEq

/-- FingerServer._read_project_file: serve a fresh cache entry without
touching storage; otherwise probe the disk, caching only a successful read. -/
def readProjectFile (cache : Cache) (ttl : Int) (disk : String → ReadResult)
    (now : Int) (key : String) : ReadOutcome :=
  let attempt : ReadOutcome :=
    match disk key with
    | .content c => ⟨some c, cacheInsert cache key (now, c), true⟩
    | .missing => ⟨none, cache, true⟩
    | .ioError => ⟨none, cache, true⟩
  match cacheLookup cache key with
  | some (ts, content) =>
    if now - ts < ttl then ⟨some content, cache, false⟩ else attempt
  | none => attempt

theorem cacheLookup_insert_self (c : Cache) (k : String) (v : Int × String) :
    cacheLookup (cacheInsert c k v) k = some v := by
  induction c with
  | nil => simp [cacheInsert, cacheLookup]
  | cons e rest ih =>
    obtain ⟨k', v'⟩ := e
    by_cases h : k' = k
    · simp [cacheInsert, cacheLookup, h]
    · simp [cacheInsert, cacheLookup, h, ih]

/-- Claim C1: a cache entry stored at time t1 with content c is served as-is
by any call at a time now with now - t1 < ttl: the call returns c, leaves the
cache unchanged, and performs no filesystem access, whatever the disk now
holds for that path (or any other). -/
theorem cache_freshness (cache : Cache) (ttl : Int) (disk : String → ReadResult)
    (now : Int) (key : String) (t1 : Int) (c : String)
    (hentry : cacheLookup cache key = some (t1, c)) (hfresh : now - t1 < ttl) :
    readProjectFile cache ttl disk now key = ⟨some c, cache, false⟩ := by
  unfold readProjectFile
  rw [hentry]
  simp [hfresh]

/-- Witness for cache_freshness: a concrete fresh entry is served unchanged
even though the disk now holds different content. -/
theorem cache_freshness_witness :
    readProjectFile [("p/2025/a.project", 10, "old")] 300
      (fun _ => .content "changed on disk") 100 "p/2025/a.project" =
      ⟨some "old", [("p/2025/a.project", 10, "old")], false⟩ :=
  cache_freshness [("p/2025/a.project", 10, "old")] 300
    (fun _ => .content "changed on disk") 100 "p/2025/a.project" 10 "old"
    (by decide) (by decide)

/-- Claim C2: a stale entry (now - t1 at least ttl) forces a disk read; if the
path currently reads with content c the call returns c and overwrites the
entry with the current timestamp. In particular a TTL at most 0 makes every
call touch the disk, provided no entry is stamped in the future. -/
theorem cache_expiry (cache : Cache) (ttl : Int) (disk : String → ReadResult)
    (now : Int) (key : String) :
    (∀ t1 c0 c, cacheLookup cache key = some (t1, c0) → ttl ≤ now - t1 →
      disk key = .content c →
      (readProjectFile cache ttl disk now key).diskAccessed = true ∧
      (readProjectFile cache ttl disk now key).result = some c ∧
      cacheLookup (readProjectFile cache ttl disk now key).cache key = some (now, c)) ∧
    (ttl ≤ 0 → (∀ t1 c0, cacheLookup cache key = some (t1, c0) → t1 ≤ now) →
      (readProjectFile cache ttl disk now key).diskAccessed = true) := by
  constructor
  · intro t1 c0 c hentry hstale hdisk
    unfold readProjectFile
    rw [hentry, hdisk]
    have : ¬ now - t1 < ttl := by omega
    simp [this, cacheLookup_insert_self]
  · intro httl hpast
    unfold readProjectFile
    cases hlook : cacheLookup cache key with
    | none => cases hdisk : disk key <;> simp [hdisk]
    | some tv =>
      obtain ⟨t1, c0⟩ := tv
      have := hpast t1 c0 hlook
      have : ¬ now - t1 < ttl := by omega
      cases hdisk : disk key <;> simp [this, hdisk]

/-- Witness for cache_expiry: a concrete stale entry is refreshed from disk,
and with a TTL of -1 the call touches the disk. -/
theorem cache_expiry_witness :
    ((readProjectFile [("p", 10, "old")] 300 (fun _ => .content "new") 1000 "p").diskAccessed = true ∧
     (readProjectFile [("p", 10, "old")] 300 (fun _ => .content "new") 1000 "p").result = some "new" ∧
     cacheLookup (readProjectFile [("p", 10, "old")] 300 (fun _ => .content "new") 1000 "p").cache "p" =
       some (1000, "new")) ∧
    (readProjectFile [("p", 10, "old")] (-1) (fun _ => .content "new") 10 "p").diskAccessed = true := by
  constructor
  · exact (cache_expiry [("p", 10, "old")] 300 (fun _ => .content "new") 1000 "p").1
      10 "old" "new" (by decide) (by decide) (by decide)
  · exact (cache_expiry [("p", 10, "old")] (-1) (fun _ => .content "new") 10 "p").2
      (by decide) (fun t1 c0 h => by simp [cacheLookup] at h; omega)

/-- Claim C6: when the call reaches the disk and the probe or read fails, the
call returns None, the cache dict is exactly what it was, and every later call
for the path (at any time not before now, against any disk) reaches the disk
again: no negative result is cached. -/
theorem no_negative_caching (cache : Cache) (ttl : Int) (disk : String → ReadResult)
    (now : Int) (key : String)
    (hreach : cacheLookup cache key = none ∨
      ∃ t1 c0, cacheLookup cache key = some (t1, c0) ∧ ttl ≤ now - t1)
    (hfail : disk key = .missing ∨ disk key = .ioError) :
    (readProjectFile cache ttl disk now key).result = none ∧
    (readProjectFile cache ttl disk now key).cache = cache ∧
    ∀ (disk' : String → ReadResult) (now' : Int), now ≤ now' →
      (readProjectFile (readProjectFile cache ttl disk now key).cache ttl disk' now' key).diskAccessed
        = true := by
  have hmain : (readProjectFile cache ttl disk now key).result = none ∧
      (readProjectFile cache ttl disk now key).cache = cache := by
    unfold readProjectFile
    rcases hreach with hnone | ⟨t1, c0, hsome, hstale⟩
    · rw [hnone]; rcases hfail with h | h <;> rw [h] <;> simp
    · rw [hsome]
      have : ¬ now - t1 < ttl := by omega
      rcases hfail with h | h <;> rw [h] <;> simp [this]
  refine ⟨hmain.1, hmain.2, ?_⟩
  intro disk' now' hle
  rw [hmain.2]
  unfold readProjectFile
  rcases hreach with hnone | ⟨t1, c0, hsome, hstale⟩
  · rw [hnone]; cases hdisk : disk' key <;> simp [hdisk]
  · rw [hsome]
    have : ¬ now' - t1 < ttl := by omega
    cases hdisk : disk' key <;> simp [this, hdisk]

/-- Witness for no_negative_caching: a concrete failing read on an empty cache
returns None, leaves the cache empty, and a later call still probes the disk. -/
theorem no_negative_caching_witness :
    (readProjectFile [] 300 (fun _ => .missing) 0 "p").result = none ∧
    (readProjectFile [] 300 (fun _ => .missing) 0 "p").cache = [] ∧
    (readProjectFile (readProjectFile [] 300 (fun _ => .missing) 0 "p").cache 300
      (fun _ => .content "late") 50 "p").diskAccessed = true := by
  have h := no_negative_caching [] 300 (fun _ => .missing) 0 "p"
    (Or.inl (by decide)) (Or.inl rfl)
  exact ⟨h.1, h.2.1, h.2.2 (fun _ => .content "late") 50 (by decide)⟩

/-! ## Sorting: Python sorted() on strings

Python sorted() on strings orders lexicographically by code point. The
built-in String order of this Lean version does not reduce in the kernel,
so the same order is defined here executably. -/

/-- Lexicographic order on character lists by code point, as Python string
comparison does. -/
def charListLe : List Char → List Char → Bool
  | [], _ => true
  | _ :: _, [] => false
  | a :: as, b :: bs =>
    if a.toNat < b.toNat then true
    else if b.toNat < a.toNat then false
    else charListLe as bs

/-- Lexicographic order on strings by code point. -/
def strLe (a b : String) : Bool := charListLe a.data b.data

theorem charListLe_total : ∀ a b : List Char,
    charListLe a b = true ∨ charListLe b a = true := by
  intro a
  induction a with
  | nil => intro b; left; rfl
  | cons x xs ih =>
    intro b
    cases b with
    | nil => right; rfl
    | cons y ys =>
      by_cases h1 : x.toNat < y.toNat
      · left; simp [charListLe, h1]
      · by_cases h2 : y.toNat < x.toNat
        · right; simp [charListLe, h1, h2]
        · rcases ih ys with h | h <;> [left; right] <;> simp [charListLe, h1, h2, h]

theorem charListLe_trans : ∀ a b c : List Char,
    charListLe a b = true → charListLe b c = true → charListLe a c = true := by
  intro a
  induction a with
  | nil => intro b c _ _; rfl
  | cons x xs ih =>
    intro b c hab hbc
    cases b with
    | nil => simp [charListLe] at hab
    | cons y ys =>
      cases c with
      | nil => simp [charListLe] at hbc
      | cons z zs =>
        simp only [charListLe] at hab hbc ⊢
        split at hab
        · split at hbc
          · simp; omega
          · split at hbc
            · exact absurd hbc (by simp)
            · simp; omega
        · split at hab
          · exact absurd hab (by simp)
          · split at hbc
            · simp; omega
            · split at hbc
              · exact absurd hbc (by simp)
              · have hne : ¬ x.toNat < z.toNat ∧ ¬ z.toNat < x.toNat := by omega
                simp [hne.1, hne.2]
                exact ih ys zs hab hbc

instance strLeIsTotal : IsTotal String (fun a b => strLe a b = true) :=
  ⟨fun a b => charListLe_total a.data b.data⟩

instance strLeIsTrans : IsTrans String (fun a b => strLe a b = true) :=
  ⟨fun a b c => charListLe_trans a.data b.data c.data⟩

/-! ## The directory tree and FingerServer._list_projects

The plan directory is a list of named entries; an entry is a directory with
children or a plain file. pathlib Path.glob performs fnmatch-style name
matching with no special-casing of hidden (dot-prefixed) names — unlike the
glob module — and a pattern such as *.project matches directories as well as
plain files; both facts are modelled. _list_projects is textually identical
in the two variants (finger_server.py lines 59-66, finger_server_win.py
lines 65-72). -/

inductive FSEntry where
  | mk (name : String) (isDir : Bool) (children : List FSEntry)

def FSEntry.name : FSEntry → String
  | .mk n _ _ => n

def FSEntry.isDir : FSEntry → Bool
  | .mk _ d _ => d

def FSEntry.children : FSEntry → List FSEntry
  | .mk _ _ c => c

/-- FingerServer._list_projects: among the immediate entries (glob *), keep
the directories with all-digit names; inside each keep every entry whose name
matches glob *.project, that is, ends with the suffix — hidden names and
directories included, since Path.glob matches both; render year/name and sort
the result. -/
def listProjects (fs : List FSEntry) : List String :=
  List.insertionSort (fun a b => strLe a b = true)
    (fs.flatMap (fun d =>
      if d.isDir && pyIsdigit d.name then
        (d.children.filter (fun f => endsWithStr f.name ".project")).map
          (fun f => d.name ++ "/" ++ f.name)
      else []))

/-- Formalisation of claim C8's own words, for comparison with the code: the
year/name strings of exactly the digit-named immediate subdirectories and
their contained plain files whose name ends with the project suffix, sorted. -/
def listProjectsSpec (fs : List FSEntry) : List String :=
  List.insertionSort (fun a b => strLe a b = true)
    (fs.flatMap (fun d =>
      if d.isDir && pyIsdigit d.name then
        (d.children.filter (fun f =>
            !f.isDir && endsWithStr f.name ".project")).map
          (fun f => d.name ++ "/" ++ f.name)
      else []))

/-- Claim C8, corrected: the output of _list_projects holds year/name exactly
for the digit-named immediate subdirectories paired with their contained
entries — plain files and directories alike, hidden or not — whose name ends
with the project suffix, and it is sorted ascending in the code-point
lexicographic order. -/
theorem list_projects_characterization (fs : List FSEntry) (s : String) :
    (s ∈ listProjects fs ↔ ∃ d, d ∈ fs ∧ d.isDir = true ∧ pyIsdigit d.name = true ∧
      ∃ f, f ∈ d.children ∧ endsWithStr f.name ".project" = true ∧
        s = d.name ++ "/" ++ f.name) ∧
    List.Sorted (fun a b => strLe a b = true) (listProjects fs) := by
  constructor
  · unfold listProjects
    rw [(List.perm_insertionSort _ _).mem_iff, List.mem_flatMap]
    constructor
    · rintro ⟨d, hd, hs⟩
      by_cases hcond : (d.isDir && pyIsdigit d.name) = true
      · rw [if_pos hcond] at hs
        rw [List.mem_map] at hs
        obtain ⟨f, hf, hfs⟩ := hs
        rw [List.mem_filter] at hf
        rw [Bool.and_eq_true] at hcond
        exact ⟨d, hd, hcond.1, hcond.2, f, hf.1, hf.2, hfs.symm⟩
      · rw [if_neg hcond] at hs
        exact absurd hs (List.not_mem_nil s)
    · rintro ⟨d, hd, hdir, hdig, f, hf, hsuf, hs⟩
      refine ⟨d, hd, ?_⟩
      rw [if_pos (by rw [Bool.and_eq_true]; exact ⟨hdir, hdig⟩)]
      rw [List.mem_map]
      refine ⟨f, ?_, hs.symm⟩
      rw [List.mem_filter]
      exact ⟨hf, hsuf⟩
  · exact List.sorted_insertionSort _ _

/-- Counterexample to claim C8 as stated: in a year directory holding a
hidden plain file named .project and a subdirectory named sub.project, the
code lists both (Path.glob matches hidden names and directories), while the
claim's words — contained files whose name ends with the suffix — admit only
the plain file. -/
theorem list_projects_claim_counterexample :
    listProjects [.mk "2025" true [.mk ".project" false [], .mk "sub.project" true []]]
        = ["2025/.project", "2025/sub.project"] ∧
    listProjectsSpec [.mk "2025" true [.mk ".project" false [], .mk "sub.project" true []]]
        = ["2025/.project"] ∧
    listProjects [.mk "2025" true [.mk ".project" false [], .mk "sub.project" true []]]
        ≠ listProjectsSpec [.mk "2025" true [.mk ".project" false [], .mk "sub.project" true []]] := by
  refine ⟨by decide, by decide, by decide⟩

/-! ## Request processing

finger_server.py (simplified bare form, process_request lines 68-87) and
finger_server_win.py (standard form, process_request lines 74-137). Python
rebindings of the request variable are inlined; truthiness of the Optional
content (if content:) is modelled as: some c with c nonempty. -/

/-- str(self.plan_dir / year / project): the path join. -/
def resolvePath (planDir year project : String) : String :=
  planDir ++ "/" ++ year ++ "/" ++ project

/-- The simplified variant's reply for a request it cannot parse. -/
def invalidMsg : String :=
  "Invalid request. Use: finger @hostname or finger user@hostname\n"

/-- The reply when a project cannot be served. -/
def notFoundMsg (project year : String) : String :=
  "Project " ++ project ++ " not found in year " ++ year ++ "\n"

/-- The standard variant's reply for a request with more than one at-sign. -/
def invalidFormatMsg : String :=
  "Invalid request format. Use: finger [-l] [user]@host\n"

/-- The standard variant's fall-through usage reply. -/
def usageMsg : String :=
  "Usage: finger [-l] [year/project]@host\nExamples:\n" ++
  "  finger @host              - List all projects\n" ++
  "  finger -l @host           - List all projects with details\n" ++
  "  finger 2025/proj@host     - View specific project\n" ++
  "  finger -l 2025/proj@host  - View project with details\n"

/-- The simplified variant's fetch branch: read through the cache, render the
content when the Optional is truthy, otherwise the not-found reply. -/
def fetchOne (cache : Cache) (ttl : Int) (disk : String → ReadResult)
    (planDir : String) (now : Int) (year project : String) : String × Cache :=
  match readProjectFile cache ttl disk now (resolvePath planDir year project) with
  | ⟨some c, cache', _⟩ =>
    if c = "" then (notFoundMsg project year, cache')
    else ("Project: " ++ project ++ "\n\n" ++ c ++ "\n", cache')
  | ⟨none, cache', _⟩ => (notFoundMsg project year, cache')

/-- finger_server.py process_request: empty request lists everything; a
two-part all-digit/anything request fetches; everything else is invalid. -/
def processRequest (cache : Cache) (ttl : Int) (disk : String → ReadResult)
    (fs : List FSEntry) (planDir : String) (now : Int) (request : String) :
    String × Cache :=
  if pyStrip request = "" then
    ("Available projects:\n" ++ joinNL (listProjects fs) ++ "\n", cache)
  else
    match pySplit '/' (pyStrip request) with
    | [year, project] =>
      if pyIsdigit year then fetchOne cache ttl disk planDir now year project
      else (invalidMsg, cache)
    | _ => (invalidMsg, cache)

/-- Metadata the standard variant reads live from disk in detailed mode: the
byte size and the rendered modification time. The rendering of the timestamp
by datetime, and the text of a raised exception, are taken as given strings. -/
structure StatInfo where
  size : Nat
  modifiedStr : String

/-- One line of the standard variant's detailed listing. The fall-through arm
is unreachable when entry names contain no slash (a filesystem guarantee);
on such a malformed name Python would raise out of process_request instead. -/
def detailLine (stat : String → Except String StatInfo) (planDir proj : String) :
    String :=
  match pySplit '/' proj with
  | [year, name] =>
    match stat (resolvePath planDir year name) with
    | .ok info =>
      ljust proj 30 ++ " " ++ rjust (toString info.size) 8 ++ " bytes  " ++
        info.modifiedStr
    | .error e => ljust proj 30 ++ " (error reading file: " ++ e ++ ")"
  | _ => ""

/-- The standard variant's listing branch, plain or detailed. -/
def winListing (stat : String → Except String StatInfo) (fs : List FSEntry)
    (planDir : String) (isLong : Bool) : String :=
  if isLong then
    "Project listing (detailed):\n" ++
      joinNL ((listProjects fs).map (detailLine stat planDir)) ++ "\n"
  else
    "Available projects:\n" ++ joinNL (listProjects fs) ++ "\n"

/-- The standard variant's fetch branch: on truthy content, detailed mode
prepends live metadata, degrading to an inline error annotation while keeping
the content when the stat fails. -/
def winFetch (cache : Cache) (ttl : Int) (disk : String → ReadResult)
    (stat : String → Except String StatInfo) (planDir : String) (now : Int)
    (year project : String) (isLong : Bool) : String × Cache :=
  match readProjectFile cache ttl disk now (resolvePath planDir year project) with
  | ⟨some c, cache', _⟩ =>
    if c = "" then (notFoundMsg project year, cache')
    else if isLong then
      match stat (resolvePath planDir year project) with
      | .ok info =>
        ("Project: " ++ project ++ "\nLocation: " ++ year ++ "/" ++ project ++
          "\nSize: " ++ toString info.size ++ " bytes\nModified: " ++
          info.modifiedStr ++ "\n\nContent:\n" ++ c ++ "\n", cache')
      | .error e =>
        ("Error reading project metadata: " ++ e ++ "\n\n" ++ c ++ "\n", cache')
    else ("Project: " ++ project ++ "\n\n" ++ c ++ "\n", cache')
  | ⟨none, cache', _⟩ => (notFoundMsg project year, cache')

/-- The standard variant after the -l detection: requires an at-sign split
into exactly two parts; an empty stripped user lists, a slash-bearing user
with an all-digit year fetches, anything else falls through to usage. -/
def winCore (cache : Cache) (ttl : Int) (disk : String → ReadResult)
    (stat : String → Except String StatInfo) (fs : List FSEntry)
    (planDir : String) (now : Int) (isLong : Bool) (request : String) :
    String × Cache :=
  if ('@' : Char) ∈ request.data then
    match pySplit '@' request with
    | [u0, _host] =>
      if pyStrip u0 = "" then (winListing stat fs planDir isLong, cache)
      else
        match splitOnce '/' (pyStrip u0).data with
        | some (yl, pl) =>
          if pyIsdigit (String.mk yl) then
            winFetch cache ttl disk stat planDir now (String.mk yl)
              (String.mk pl) isLong
          else (usageMsg, cache)
        | none => (usageMsg, cache)
    | _ => (invalidFormatMsg, cache)
  else (usageMsg, cache)

/-- finger_server_win.py process_request: strip, detect and consume the -l
token, then dispatch on the standard [user]@host form. -/
def processRequestWin (cache : Cache) (ttl : Int) (disk : String → ReadResult)
    (stat : String → Except String StatInfo) (fs : List FSEntry)
    (planDir : String) (now : Int) (request : String) : String × Cache :=
  if pyStartsWith (pyStrip request) "-l " then
    winCore cache ttl disk stat fs planDir now true
      (pyStrip (pyDrop (pyStrip request) 3))
  else
    winCore cache ttl disk stat fs planDir now false (pyStrip request)


/-! ## Trailing newline (claim C10) -/

theorem notFoundMsg_trailing (p y : String) : ∃ s, notFoundMsg p y = s ++ "\n" :=
  ⟨"Project " ++ p ++ " not found in year " ++ y, rfl⟩

theorem invalidMsg_trailing : ∃ s, invalidMsg = s ++ "\n" :=
  ⟨"Invalid request. Use: finger @hostname or finger user@hostname", rfl⟩

theorem invalidFormatMsg_trailing : ∃ s, invalidFormatMsg = s ++ "\n" :=
  ⟨"Invalid request format. Use: finger [-l] [user]@host", rfl⟩

set_option maxRecDepth 10000 in
theorem usageMsg_trailing : ∃ s, usageMsg = s ++ "\n" :=
  ⟨"Usage: finger [-l] [year/project]@host\nExamples:\n" ++
   "  finger @host              - List all projects\n" ++
   "  finger -l @host           - List all projects with details\n" ++
   "  finger 2025/proj@host     - View specific project\n" ++
   "  finger -l 2025/proj@host  - View project with details", by rfl⟩

theorem fetchOne_trailing (cache : Cache) (ttl : Int) (disk : String → ReadResult)
    (planDir : String) (now : Int) (year project : String) :
    ∃ s, (fetchOne cache ttl disk planDir now year project).1 = s ++ "\n" := by
  unfold fetchOne
  split
  · split
    · exact notFoundMsg_trailing _ _
    · exact ⟨_, rfl⟩
  · exact notFoundMsg_trailing _ _

theorem winFetch_trailing (cache : Cache) (ttl : Int) (disk : String → ReadResult)
    (stat : String → Except String StatInfo) (planDir : String) (now : Int)
    (year project : String) (isLong : Bool) :
    ∃ s, (winFetch cache ttl disk stat planDir now year project isLong).1 = s ++ "\n" := by
  unfold winFetch
  split
  · split
    · exact notFoundMsg_trailing _ _
    · split
      · split <;> exact ⟨_, rfl⟩
      · exact ⟨_, rfl⟩
  · exact notFoundMsg_trailing _ _

theorem winListing_trailing (stat : String → Except String StatInfo)
    (fs : List FSEntry) (planDir : String) (isLong : Bool) :
    ∃ s, winListing stat fs planDir isLong = s ++ "\n" := by
  unfold winListing
  split <;> exact ⟨_, rfl⟩

theorem winCore_trailing (cache : Cache) (ttl : Int) (disk : String → ReadResult)
    (stat : String → Except String StatInfo) (fs : List FSEntry)
    (planDir : String) (now : Int) (isLong : Bool) (request : String) :
    ∃ s, (winCore cache ttl disk stat fs planDir now isLong request).1 = s ++ "\n" := by
  unfold winCore
  split
  · split
    · split
      · exact winListing_trailing _ _ _ _
      · split
        · split
          · exact winFetch_trailing _ _ _ _ _ _ _ _ _
          · exact usageMsg_trailing
        · exact usageMsg_trailing
    · exact invalidFormatMsg_trailing
  · exact usageMsg_trailing

/-- Claim C10: for every input string the response of process_request ends
with a newline, in both variants and on every branch: plain and detailed
listing, fetch success plain and detailed, not-found, the detailed-fetch
metadata-error degradation, the invalid-format reply and the usage reply. -/
theorem responses_end_with_newline (cache : Cache) (ttl : Int)
    (disk : String → ReadResult) (stat : String → Except String StatInfo)
    (fs : List FSEntry) (planDir : String) (now : Int) (request : String) :
    (∃ s, (processRequest cache ttl disk fs planDir now request).1 = s ++ "\n") ∧
    (∃ s, (processRequestWin cache ttl disk stat fs planDir now request).1 = s ++ "\n") := by
  constructor
  · unfold processRequest
    split
    · exact ⟨_, rfl⟩
    · split
      · split
        · exact fetchOne_trailing _ _ _ _ _ _ _
        · exact invalidMsg_trailing
      · exact invalidMsg_trailing
  · unfold processRequestWin
    split <;> exact winCore_trailing _ _ _ _ _ _ _ _ _

/-! ## Splitting lemmas for the request grammar -/
theorem splitChars_no_sep {sep : Char} : ∀ {l : List Char}, sep ∉ l → splitChars sep l = [l] := by
  intro l
  induction l with
  | nil => intro _; rfl
  | cons c cs ih =>
    intro h
    have hc : ¬ c = sep := fun hcs => h (hcs ▸ List.mem_cons_self c cs)
    have hcs : sep ∉ cs := fun hm => h (List.mem_cons_of_mem c hm)
    simp only [splitChars, if_neg hc, ih hcs]

theorem splitChars_before {sep : Char} : ∀ {y p : List Char}, sep ∉ y →
    splitChars sep (y ++ sep :: p) = y :: splitChars sep p := by
  intro y
  induction y with
  | nil => intro p _; simp [splitChars]
  | cons c cs ih =>
    intro p h
    have hc : ¬ c = sep := fun hcs => h (hcs ▸ List.mem_cons_self c cs)
    have hcs : sep ∉ cs := fun hm => h (List.mem_cons_of_mem c hm)
    simp only [List.cons_append, splitChars, if_neg hc, List.append_eq]
    rw [ih hcs]

theorem splitChars_length (sep : Char) : ∀ (l : List Char),
    (splitChars sep l).length = l.count sep + 1 := by
  intro l
  induction l with
  | nil => rfl
  | cons c cs ih =>
    rw [List.count_cons]
    rcases hrest : splitChars sep cs with _ | ⟨p, ps⟩
    · rw [hrest] at ih; simp at ih
    · rw [hrest] at ih
      simp only [List.length_cons] at ih
      by_cases hc : c = sep
      · simp only [splitChars, if_pos hc, hrest, List.length_cons]
        have h1 : (if (c == sep) = true then 1 else 0) = 1 := by simp [hc]
        rw [h1]
        omega
      · simp only [splitChars, if_neg hc, hrest, List.length_cons]
        have h0 : (if (c == sep) = true then 1 else 0) = 0 := by simp [hc]
        rw [h0]
        omega

theorem splitOnce_eq {sep : Char} : ∀ {y : List Char} (p : List Char), sep ∉ y →
    splitOnce sep (y ++ sep :: p) = some (y, p) := by
  intro y
  induction y with
  | nil => intro p _; simp [splitOnce]
  | cons c cs ih =>
    intro p h
    have hc : ¬ c = sep := fun hcs => h (hcs ▸ List.mem_cons_self c cs)
    have hcs : sep ∉ cs := fun hm => h (List.mem_cons_of_mem c hm)
    simp only [List.cons_append, splitOnce, if_neg hc, List.append_eq]
    rw [ih p hcs]
    rfl

theorem stringMk_data (s : String) : String.mk s.data = s := by
  cases s; rfl

theorem pyIsdigit_not_mem {s : String} {c : Char} (h : pyIsdigit s = true)
    (hc : c.isDigit = false) : c ∉ s.data := by
  intro hm
  unfold pyIsdigit at h
  simp only [Bool.and_eq_true, List.all_eq_true] at h
  have := h.2 c hm
  rw [hc] at this
  exact absurd this (by decide)

theorem data_ne_nil_of_append_sep (y p : String) :
    (y ++ "/" ++ p).data ≠ [] := by
  rw [String.data_append, String.data_append]
  intro h
  have := congrArg List.length h
  simp [List.length_append] at this

theorem str_ne_empty_of_data {s : String} (h : s.data ≠ []) : s ≠ "" := by
  intro he
  subst he
  exact h rfl

theorem pySplit_pair {y p : String} (hy : ('/' : Char) ∉ y.data)
    (hp : ('/' : Char) ∉ p.data) : pySplit '/' (y ++ "/" ++ p) = [y, p] := by
  unfold pySplit
  rw [String.data_append, String.data_append]
  have : ("/" : String).data = ['/'] := rfl
  rw [this, List.append_assoc, List.singleton_append]
  rw [splitChars_before hy, splitChars_no_sep hp]
  simp [stringMk_data]

/-! ## FingerServer.handle_client (claim C9)

handle_client is identical in the two variants up to the process_request it
calls (finger_server.py lines 20-37, finger_server_win.py lines 26-44), so
the embedding is parametric in the processing function. The connection is a
record of which step raises: the socket read, the bytes decode, the
process_request call, the write, and the drain. The get_extra_info and print
calls do not raise and are omitted. writer.close and wait_closed are modelled
as non-raising, matching the quantification of the claim (read, decode,
processing, write). -/

/-- Which steps of one connection raise, and the decoded request text. -/
structure ConnEnv where
  readRaises : Bool
  decodeRaises : Bool
  data : String
  processRaises : Bool
  writeRaises : Bool
  drainRaises : Bool

/-- Observable per-connection state: response strings written to the socket,
number of close calls on the writer, and the server cache. -/
structure ConnState where
  written : List String
  closeCount : Nat
  cache : Cache

/-- Python try/except Exception/finally: the body either completes or raises;
a raise runs the except block; the finally block runs in every case. With a
catch-all except and a non-raising finally, nothing escapes. -/
def tryExceptFinally {σ : Type} (body : σ → σ × Bool) (onExc : σ → σ)
    (final : σ → σ) (s : σ) : σ × Bool :=
  let r := body s
  (final (if r.2 then onExc r.1 else r.1), false)

/-- The try body of handle_client: read, decode and strip, process, write,
drain, stopping (with the raised flag) at the first step that raises. A
process_request exception occurs before any write and, in the source, before
any cache mutation on the raising paths. -/
def clientBody (process : String → Cache → String × Cache) (env : ConnEnv)
    (s : ConnState) : ConnState × Bool :=
  if env.readRaises then (s, true)
  else if env.decodeRaises then (s, true)
  else if env.processRaises then (s, true)
  else
    match process (pyStrip env.data) s.cache with
    | (resp, cache') =>
      if env.writeRaises then ({s with cache := cache'}, true)
      else if env.drainRaises then
        ({s with cache := cache', written := s.written ++ [resp]}, true)
      else ({s with cache := cache', written := s.written ++ [resp]}, false)

/-- FingerServer.handle_client: the try body under a catch-all except that
only logs, and a finally that closes the writer. -/
def handleClient (process : String → Cache → String × Cache) (env : ConnEnv)
    (s : ConnState) : ConnState × Bool :=
  tryExceptFinally (clientBody process env) (fun t => t)
    (fun t => {t with closeCount := t.closeCount + 1}) s

/-- Claim C9: for every connection, handle_client closes the writer exactly
once whether or not read, decode, processing or write raised, propagates no
exception to its caller, and writes no response bytes when the read or the
decode raised. -/
theorem handle_client_lifecycle (process : String → Cache → String × Cache)
    (env : ConnEnv) (s : ConnState) :
    (handleClient process env s).2 = false ∧
    (handleClient process env s).1.closeCount = s.closeCount + 1 ∧
    (env.readRaises = true ∨ env.decodeRaises = true →
      (handleClient process env s).1.written = s.written) := by
  rcases env with ⟨r, d, data, p, w, dr⟩
  rcases hx : process (pyStrip data) s.cache with ⟨resp, cache'⟩
  unfold handleClient tryExceptFinally clientBody
  cases r <;> cases d <;> cases p <;> cases w <;> cases dr <;> simp [hx]

/-- Witness for handle_client_lifecycle: a connection whose read raises is
closed once with nothing written. -/
theorem handle_client_lifecycle_witness :
    (handleClient (fun r c => (r, c)) ⟨true, false, "x", false, false, false⟩
        ⟨[], 0, []⟩).2 = false ∧
    (handleClient (fun r c => (r, c)) ⟨true, false, "x", false, false, false⟩
        ⟨[], 0, []⟩).1.closeCount = 0 + 1 ∧
    (handleClient (fun r c => (r, c)) ⟨true, false, "x", false, false, false⟩
        ⟨[], 0, []⟩).1.written = [] := by
  have h := handle_client_lifecycle (fun r c => (r, c))
    ⟨true, false, "x", false, false, false⟩ ⟨[], 0, []⟩
  exact ⟨h.1, h.2.1, h.2.2 (Or.inl rfl)⟩

/-! ## Empty requests (claim C3) -/

set_option maxRecDepth 10000 in
/-- Claim C3, corrected: an empty request (after stripping) yields the
ListAll response, header plus full listing, in the simplified variant only;
the standard variant answers an empty request with the usage reply, and
produces the ListAll response for the at-sign form with an empty user, as in
a request reading at-host. -/
theorem empty_request_behaviour (cache : Cache) (ttl : Int) (disk : String → ReadResult)
    (stat : String → Except String StatInfo) (fs : List FSEntry)
    (planDir : String) (now : Int) :
    (∀ r : String, pyStrip r = "" →
      processRequest cache ttl disk fs planDir now r =
        ("Available projects:\n" ++ joinNL (listProjects fs) ++ "\n", cache)) ∧
    (∀ r : String, pyStrip r = "" →
      processRequestWin cache ttl disk stat fs planDir now r = (usageMsg, cache)) ∧
    (processRequestWin cache ttl disk stat fs planDir now "@host" =
      ("Available projects:\n" ++ joinNL (listProjects fs) ++ "\n", cache)) := by
  refine ⟨?_, ?_, ?_⟩
  · intro r h
    unfold processRequest
    rw [h]
    rw [if_pos rfl]
  · intro r h
    unfold processRequestWin
    rw [h]
    have h1 : pyStartsWith "" "-l " = false := rfl
    rw [h1]
    unfold winCore
    rfl
  · unfold processRequestWin
    have h0 : pyStrip "@host" = "@host" := rfl
    rw [h0]
    have h1 : pyStartsWith "@host" "-l " = false := rfl
    rw [h1]
    unfold winCore
    have h2 : ('@' : Char) ∈ ("@host" : String).data := by decide
    rw [if_pos h2]
    have h3 : pySplit '@' "@host" = ["", "host"] := rfl
    rw [h3]
    have h4 : pyStrip "" = "" := rfl
    dsimp only
    rw [if_pos h4]
    rfl

/-- Witness for empty_request_behaviour at concrete arguments: the simplified
variant lists on the empty request and the standard variant returns usage. -/
theorem empty_request_behaviour_witness :
    processRequest [] 300 (fun _ => .missing) [.mk "2025" true [.mk "a.project" false []]]
        "plan" 0 "" =
      ("Available projects:\n" ++
        joinNL (listProjects [.mk "2025" true [.mk "a.project" false []]]) ++ "\n", []) ∧
    processRequestWin [] 300 (fun _ => .missing) (fun _ => .error "e")
        [.mk "2025" true [.mk "a.project" false []]] "plan" 0 "  " = (usageMsg, []) := by
  have h := empty_request_behaviour [] 300 (fun _ => .missing) (fun _ => .error "e")
    [.mk "2025" true [.mk "a.project" false []]] "plan" 0
  exact ⟨h.1 "" (by rfl), h.2.1 "  " (by rfl)⟩

set_option maxRecDepth 100000 in
/-- Counterexample to claim C3 as stated: the standard variant answers the
empty request with the usage reply, which holds neither the listing header
nor the listing entry the root directory would produce. -/
theorem empty_request_win_counterexample :
    (processRequestWin [] 300 (fun _ => .missing) (fun _ => .error "e")
        [.mk "2025" true [.mk "test.project" false []]] "plan" 0 "").1 = usageMsg ∧
    strContains usageMsg "2025/test.project" = false ∧
    strContains usageMsg "Available projects" = false := by
  refine ⟨rfl, by decide, by decide⟩

/-! ## Bare-form request parsing (claim C5) -/
/-- A digit-year two-part request splits into exactly its two parts. -/
theorem pySplit_pair_of_digit {year project : String} (hdig : pyIsdigit year = true)
    (hp : ('/' : Char) ∉ project.data) :
    pySplit '/' (year ++ "/" ++ project) = [year, project] :=
  pySplit_pair (pyIsdigit_not_mem hdig (by decide)) hp

/-- A rest holding a further slash makes the full split at least three parts. -/
theorem pySplit_long (year project : String) (hp : ('/' : Char) ∈ project.data) :
    3 ≤ (pySplit '/' (year ++ "/" ++ project)).length := by
  unfold pySplit
  rw [List.length_map, splitChars_length]
  rw [String.data_append, String.data_append]
  have hslash : ("/" : String).data = ['/'] := rfl
  rw [hslash, List.append_assoc, List.singleton_append]
  rw [List.count_append, List.count_cons]
  have h1 : 0 < project.data.count '/' := List.count_pos_iff.mpr hp
  have h2 : (if (('/' : Char) == '/') = true then 1 else 0) = 1 := by decide
  rw [h2]
  omega

/-- Reduction of the simplified variant on a stripped two-part request with
an all-digit year: the fetch branch is taken. -/
theorem processRequest_fetch_eq (cache : Cache) (ttl : Int)
    (disk : String → ReadResult) (fs : List FSEntry) (planDir : String)
    (now : Int) (year project : String) (hdig : pyIsdigit year = true)
    (hp : ('/' : Char) ∉ project.data)
    (hstrip : pyStrip (year ++ "/" ++ project) = year ++ "/" ++ project) :
    processRequest cache ttl disk fs planDir now (year ++ "/" ++ project) =
      fetchOne cache ttl disk planDir now year project := by
  unfold processRequest
  rw [hstrip]
  rw [if_neg (str_ne_empty_of_data (data_ne_nil_of_append_sep year project))]
  rw [pySplit_pair_of_digit hdig hp]
  dsimp only
  rw [if_pos hdig]

/-- Claim C5, corrected: a bare request of the form year-slash-rest with an
all-digit year reaches the fetch branch exactly when the request splits on
the slash into two parts, that is when rest holds no further slash; a rest
with further slashes yields Invalid (the code splits fully and demands
exactly two parts, it does not split once), and a non-digit left part yields
Invalid. -/
theorem bare_request_parsing (cache : Cache) (ttl : Int) (disk : String → ReadResult)
    (fs : List FSEntry) (planDir : String) (now : Int) :
    (∀ year project : String, pyIsdigit year = true → ('/' : Char) ∉ project.data →
      pyStrip (year ++ "/" ++ project) = year ++ "/" ++ project →
      processRequest cache ttl disk fs planDir now (year ++ "/" ++ project) =
        fetchOne cache ttl disk planDir now year project) ∧
    (∀ year project : String, pyIsdigit year = true → ('/' : Char) ∈ project.data →
      pyStrip (year ++ "/" ++ project) = year ++ "/" ++ project →
      processRequest cache ttl disk fs planDir now (year ++ "/" ++ project) =
        (invalidMsg, cache)) ∧
    (∀ year project : String, pyIsdigit year = false → ('/' : Char) ∉ year.data →
      ('/' : Char) ∉ project.data →
      pyStrip (year ++ "/" ++ project) = year ++ "/" ++ project →
      processRequest cache ttl disk fs planDir now (year ++ "/" ++ project) =
        (invalidMsg, cache)) := by
  refine ⟨?_, ?_, ?_⟩
  · intro year project hdig hp hstrip
    exact processRequest_fetch_eq cache ttl disk fs planDir now year project hdig hp hstrip
  · intro year project hdig hp hstrip
    unfold processRequest
    rw [hstrip]
    rw [if_neg (str_ne_empty_of_data (data_ne_nil_of_append_sep year project))]
    have hlen := pySplit_long year project hp
    cases hsplit : pySplit '/' (year ++ "/" ++ project) with
    | nil => rw [hsplit] at hlen
    | cons a tail =>
      cases tail with
      | nil => rw [hsplit] at hlen
      | cons b tail2 =>
        cases tail2 with
        | nil => rw [hsplit] at hlen; simp at hlen
        | cons c rest => rfl
  · intro year project hdig hy hp hstrip
    unfold processRequest
    rw [hstrip]
    rw [if_neg (str_ne_empty_of_data (data_ne_nil_of_append_sep year project))]
    rw [pySplit_pair hy hp]
    dsimp only
    rw [if_neg (by rw [hdig]; exact Bool.false_ne_true)]

/-- Counterexample to claim C5 as stated: the request 2025/a/b, whose rest
holds a further slash, is answered with the Invalid usage reply and not with
either response FetchOne(2025, a/b) could render. -/
theorem bare_request_multislash_counterexample :
    (processRequest [] 300 (fun _ => .content "X") [] "plan" 0 "2025/a/b").1 = invalidMsg ∧
    invalidMsg ≠ "Project: a/b\n\nX\n" ∧
    invalidMsg ≠ notFoundMsg "a/b" "2025" := by
  refine ⟨rfl, by decide, by decide⟩

/-- Witness for bare_request_parsing: concrete instances of all three arms. -/
theorem bare_request_parsing_witness :
    processRequest [] 300 (fun _ => .content "X") [] "plan" 0 ("2025" ++ "/" ++ "x") =
      fetchOne [] 300 (fun _ => .content "X") "plan" 0 "2025" "x" ∧
    processRequest [] 300 (fun _ => .content "X") [] "plan" 0 ("2025" ++ "/" ++ "a/b") =
      (invalidMsg, []) ∧
    processRequest [] 300 (fun _ => .content "X") [] "plan" 0 ("year" ++ "/" ++ "x") =
      (invalidMsg, []) := by
  have h := bare_request_parsing [] 300 (fun _ => .content "X") [] "plan" 0
  exact ⟨h.1 "2025" "x" (by decide) (by decide) (by decide),
    h.2.1 "2025" "a/b" (by decide) (by decide) (by decide),
    h.2.2 "year" "x" (by decide) (by decide) (by decide) (by decide)⟩

/-! ## Fetch rendering (claim C4) -/
/-- An all-digit string begins with a digit character. -/
theorem pyIsdigit_head {s : String} (h : pyIsdigit s = true) :
    ∃ c cs, s.data = c :: cs ∧ c.isDigit = true := by
  unfold pyIsdigit at h
  rcases hd : s.data with _ | ⟨c, cs⟩
  · rw [hd] at h; simp at h
  · rw [hd] at h
    simp only [Bool.and_eq_true, List.all_cons] at h
    exact ⟨c, cs, rfl, h.2.1⟩

/-- Character-list shape of a slash join. -/
theorem data_append_slash (y p : String) :
    (y ++ "/" ++ p).data = y.data ++ '/' :: p.data := by
  rw [String.data_append, String.data_append, List.append_assoc]
  rfl

/-- Reduction of the standard variant on a stripped request of the form
year-slash-project-at-host with an all-digit year and no at-sign in the
project name: the plain (non-detailed) fetch branch is taken. -/
theorem win_fetch_request_reduction (cache : Cache) (ttl : Int)
    (disk : String → ReadResult) (stat : String → Except String StatInfo)
    (fs : List FSEntry) (planDir : String) (now : Int) (year project : String)
    (hdig : pyIsdigit year = true) (hpa : ('@' : Char) ∉ project.data)
    (hstrip : pyStrip (year ++ "/" ++ project ++ "@host") = year ++ "/" ++ project ++ "@host")
    (hstrip2 : pyStrip (year ++ "/" ++ project) = year ++ "/" ++ project) :
    processRequestWin cache ttl disk stat fs planDir now (year ++ "/" ++ project ++ "@host") =
      winFetch cache ttl disk stat planDir now year project false := by
  have hya : ('@' : Char) ∉ year.data := pyIsdigit_not_mem hdig (by decide)
  have hys : ('/' : Char) ∉ year.data := pyIsdigit_not_mem hdig (by decide)
  obtain ⟨c0, cs0, hydata, hc0⟩ := pyIsdigit_head hdig
  have hdata2 : (year ++ "/" ++ project).data = year.data ++ '/' :: project.data :=
    data_append_slash year project
  have hdata : (year ++ "/" ++ project ++ "@host").data =
      (year ++ "/" ++ project).data ++ '@' :: ("host" : String).data := by
    rw [String.data_append]
  have hXnotin : ('@' : Char) ∉ (year ++ "/" ++ project).data := by
    rw [hdata2]
    intro hm
    rcases List.mem_append.mp hm with hm | hm
    · exact hya hm
    · rcases List.mem_cons.mp hm with hm | hm
      · exact absurd hm (by decide)
      · exact hpa hm
  have hsw : pyStartsWith (year ++ "/" ++ project ++ "@host") "-l " = false := by
    unfold pyStartsWith
    rw [hdata, hdata2, hydata]
    rw [List.cons_append, List.cons_append]
    have hne : (('-' : Char) == c0) = false := by
      rw [beq_eq_false_iff_ne]
      intro he
      rw [← he] at hc0
      exact absurd hc0 (by decide)
    show startsList ('-' :: 'l' :: ' ' :: []) (c0 :: _) = false
    unfold startsList
    rw [hne]
    exact Bool.false_and _
  have hmem : ('@' : Char) ∈ (year ++ "/" ++ project ++ "@host").data := by
    rw [hdata]
    exact List.mem_append_right _ (List.mem_cons_self _ _)
  have hsplitAt : pySplit '@' (year ++ "/" ++ project ++ "@host") =
      [year ++ "/" ++ project, "host"] := by
    unfold pySplit
    rw [hdata]
    rw [splitChars_before hXnotin,
      splitChars_no_sep (by decide : ('@' : Char) ∉ ("host" : String).data)]
    simp only [List.map_cons, List.map_nil, stringMk_data]
  have hsplitOnce : splitOnce '/' (year ++ "/" ++ project).data =
      some (year.data, project.data) := by
    rw [hdata2]
    exact splitOnce_eq project.data hys
  unfold processRequestWin
  rw [hstrip, hsw]
  rw [if_neg Bool.false_ne_true]
  unfold winCore
  rw [if_pos hmem]
  rw [hsplitAt]
  dsimp only
  rw [hstrip2]
  rw [if_neg (str_ne_empty_of_data (data_ne_nil_of_append_sep year project))]
  rw [hsplitOnce]
  dsimp only
  rw [stringMk_data, stringMk_data]
  rw [if_pos hdig]


/-- Claim C4, corrected: a FetchOne request whose resolved path reads with
NON-EMPTY content c renders exactly the Project-colon header, a blank line
and c, in the non-detailed mode of both variants; the not-found reply is
produced when the read fails OR when the read succeeds with empty content,
because the code tests the Optional result for truthiness and the empty
string is falsy. -/
theorem fetch_success_rendering (cache : Cache) (ttl : Int)
    (disk : String → ReadResult) (stat : String → Except String StatInfo)
    (fs : List FSEntry) (planDir : String) (now : Int) :
    (∀ year project c, pyIsdigit year = true → ('/' : Char) ∉ project.data →
      pyStrip (year ++ "/" ++ project) = year ++ "/" ++ project →
      (readProjectFile cache ttl disk now (resolvePath planDir year project)).result = some c →
      c ≠ "" →
      (processRequest cache ttl disk fs planDir now (year ++ "/" ++ project)).1 =
        "Project: " ++ project ++ "\n\n" ++ c ++ "\n") ∧
    (∀ year project, pyIsdigit year = true → ('/' : Char) ∉ project.data →
      pyStrip (year ++ "/" ++ project) = year ++ "/" ++ project →
      ((readProjectFile cache ttl disk now (resolvePath planDir year project)).result = none ∨
       (readProjectFile cache ttl disk now (resolvePath planDir year project)).result = some "") →
      (processRequest cache ttl disk fs planDir now (year ++ "/" ++ project)).1 =
        notFoundMsg project year) ∧
    (∀ year project c, pyIsdigit year = true → ('@' : Char) ∉ project.data →
      pyStrip (year ++ "/" ++ project ++ "@host") = year ++ "/" ++ project ++ "@host" →
      pyStrip (year ++ "/" ++ project) = year ++ "/" ++ project →
      (readProjectFile cache ttl disk now (resolvePath planDir year project)).result = some c →
      c ≠ "" →
      (processRequestWin cache ttl disk stat fs planDir now
          (year ++ "/" ++ project ++ "@host")).1 =
        "Project: " ++ project ++ "\n\n" ++ c ++ "\n") := by
  refine ⟨?_, ?_, ?_⟩
  · intro year project c hdig hp hstrip hres hc
    rw [processRequest_fetch_eq cache ttl disk fs planDir now year project hdig hp hstrip]
    unfold fetchOne
    rcases hr : readProjectFile cache ttl disk now (resolvePath planDir year project) with
      ⟨res, cache2, acc⟩
    rw [hr] at hres
    simp only at hres
    subst hres
    dsimp only
    rw [if_neg hc]
  · intro year project hdig hp hstrip hres
    rw [processRequest_fetch_eq cache ttl disk fs planDir now year project hdig hp hstrip]
    unfold fetchOne
    rcases hr : readProjectFile cache ttl disk now (resolvePath planDir year project) with
      ⟨res, cache2, acc⟩
    rw [hr] at hres
    simp only at hres
    rcases hres with hres | hres <;> subst hres
    · rfl
    · rfl
  · intro year project c hdig hpa hstrip hstrip2 hres hc
    rw [win_fetch_request_reduction cache ttl disk stat fs planDir now year project
      hdig hpa hstrip hstrip2]
    unfold winFetch
    rcases hr : readProjectFile cache ttl disk now (resolvePath planDir year project) with
      ⟨res, cache2, acc⟩
    rw [hr] at hres
    simp only at hres
    subst hres
    dsimp only
    rw [if_neg hc]
    rw [if_neg Bool.false_ne_true]

/-- Counterexample to claim C4 as stated: a file that exists and reads
successfully with empty content is answered with the not-found message, so
the not-found reply is not produced only on failed reads. -/
theorem fetch_empty_content_counterexample :
    (processRequest [] 300 (fun _ => .content "") [] "plan" 0 "2025/empty.project").1 =
      notFoundMsg "empty.project" "2025" ∧
    notFoundMsg "empty.project" "2025" ≠ "Project: empty.project\n\n\n" := by
  refine ⟨rfl, by decide⟩

/-- Witness for fetch_success_rendering: all three arms at concrete inputs. -/
theorem fetch_success_rendering_witness :
    (processRequest [] 300 (fun _ => .content "T") [] "plan" 0 ("2025" ++ "/" ++ "t.project")).1 =
      "Project: " ++ "t.project" ++ "\n\n" ++ "T" ++ "\n" ∧
    (processRequest [] 300 (fun _ => .missing) [] "plan" 0 ("2025" ++ "/" ++ "t.project")).1 =
      notFoundMsg "t.project" "2025" ∧
    (processRequestWin [] 300 (fun _ => .content "T") (fun _ => .error "e") [] "plan" 0
        ("2025" ++ "/" ++ "t.project" ++ "@host")).1 =
      "Project: " ++ "t.project" ++ "\n\n" ++ "T" ++ "\n" := by
  refine ⟨(fetch_success_rendering [] 300 (fun _ => .content "T") (fun _ => .error "e")
      [] "plan" 0).1 "2025" "t.project" "T" (by decide) (by decide) (by decide)
      (by decide) (by decide),
    (fetch_success_rendering [] 300 (fun _ => .missing) (fun _ => .error "e")
      [] "plan" 0).2.1 "2025" "t.project" (by decide) (by decide) (by decide)
      (Or.inl (by decide)),
    (fetch_success_rendering [] 300 (fun _ => .content "T") (fun _ => .error "e")
      [] "plan" 0).2.2 "2025" "t.project" "T" (by decide) (by decide) (by decide)
      (by decide) (by decide) (by decide)⟩

/-! ## Malformed requests (claim C7) -/

set_option maxRecDepth 100000 in
/-- Claim C7, corrected: every malformed request to the simplified variant is
answered with the Invalid-request reply, whose text holds the word Invalid;
in the standard variant only requests with more than one at-sign get a reply
holding the word Invalid (the invalid-format reply), while the other
malformed requests fall through to the usage reply, which does not hold the
word. -/
theorem malformed_request_invalid (cache : Cache) (ttl : Int)
    (disk : String → ReadResult) (stat : String → Except String StatInfo)
    (fs : List FSEntry) (planDir : String) (now : Int) :
    (∀ r : String, pyStrip r = r → r ≠ "" →
      (∀ y p, pySplit '/' r = [y, p] → pyIsdigit y = false) →
      (processRequest cache ttl disk fs planDir now r).1 = invalidMsg ∧
      strContains invalidMsg "Invalid" = true) ∧
    (∀ r : String, pyStrip r = r → pyStartsWith r "-l " = false →
      3 ≤ (pySplit '@' r).length →
      (processRequestWin cache ttl disk stat fs planDir now r).1 = invalidFormatMsg ∧
      strContains invalidFormatMsg "Invalid" = true) := by
  constructor
  · intro r hstrip hne hnd
    refine ⟨?_, by decide⟩
    unfold processRequest
    rw [hstrip]
    rw [if_neg hne]
    cases hsplit : pySplit '/' r with
    | nil => rfl
    | cons a tail =>
      cases tail with
      | nil => rfl
      | cons b tail2 =>
        cases tail2 with
        | nil =>
          dsimp only
          rw [if_neg (by rw [hnd a b hsplit]; exact Bool.false_ne_true)]
        | cons c rest => rfl
  · intro r hstrip hsw h3
    refine ⟨?_, by decide⟩
    have hlenEq : (pySplit '@' r).length = (splitChars '@' r.data).length := by
      unfold pySplit
      rw [List.length_map]
    have hcl := splitChars_length '@' r.data
    have hcount : 0 < r.data.count '@' := by omega
    have hmem : ('@' : Char) ∈ r.data := List.count_pos_iff.mp hcount
    unfold processRequestWin
    rw [hstrip, hsw]
    rw [if_neg Bool.false_ne_true]
    unfold winCore
    rw [if_pos hmem]
    cases hsplit : pySplit '@' r with
    | nil => rfl
    | cons a tail =>
      cases tail with
      | nil => rfl
      | cons b tail2 =>
        cases tail2 with
        | nil => rw [hsplit] at h3; simp at h3
        | cons c rest => rfl

set_option maxRecDepth 100000 in
/-- Witness for malformed_request_invalid: both arms at concrete requests. -/
theorem malformed_request_invalid_witness :
    ((processRequest [] 300 (fun _ => .missing) [] "plan" 0 "invalid/format").1 = invalidMsg ∧
      strContains invalidMsg "Invalid" = true) ∧
    ((processRequestWin [] 300 (fun _ => .missing) (fun _ => .error "e") [] "plan" 0
        "a@b@c").1 = invalidFormatMsg ∧
      strContains invalidFormatMsg "Invalid" = true) := by
  have h := malformed_request_invalid [] 300 (fun _ => .missing) (fun _ => .error "e")
    [] "plan" 0
  refine ⟨h.1 "invalid/format" (by decide) (by decide) ?_, h.2 "a@b@c" (by decide) (by decide) (by decide)⟩
  intro y p hp
  rw [show pySplit '/' "invalid/format" = ["invalid", "format"] from rfl] at hp
  injection hp with h1 h2
  rw [← h1]
  decide

set_option maxRecDepth 100000 in
/-- Counterexample to claim C7 as stated: the standard variant answers the
malformed request invalid-slash-format (no at-sign, non-digit year) with the
usage reply, which does not contain the word Invalid. -/
theorem malformed_request_win_counterexample :
    (processRequestWin [] 300 (fun _ => .missing) (fun _ => .error "e") [] "plan" 0
        "invalid/format").1 = usageMsg ∧
    strContains usageMsg "Invalid" = false := by
  refine ⟨rfl, by decide⟩
